import Mathlib

/-!
Shallow embedding of the incident-data aggregation pipeline of
`src/components/Dashboard.tsx`: the helpers `formatDate` and `formatAxisDate`
and the `loadData` closure of the `Dashboard` component (monthly bucketing,
per-feed injury-severity counting, and the fetch orchestration), together
with proofs of the specified properties.
-/

/-- Calendar fields of a valid JavaScript `Date` value as read by the
pipeline: `getFullYear()` and `getMonth()` (zero-based, always in `0..11`). -/
structure JSDate where
  year : Int
  month : Fin 12
deriving DecidableEq, Repr

/-- The module-level `MONTHS` array of `Dashboard.tsx`. -/
def MONTHS : List String :=
  ["Jan", "Feb", "Mar", "Apr", "May", "Jun",
   "Jul", "Aug", "Sep", "Oct", "Nov", "Dec"]

/-- JavaScript `s.padStart(2, '0')`. -/
def padStart2 (s : String) : String :=
  String.mk (List.replicate (2 - s.length) '0') ++ s

/-- The `formatDate` helper of `Dashboard.tsx`:
`` `${MONTHS[date.getMonth()]} ${date.getFullYear()}` ``.  Inside `loadData`
it is applied to an already constructed `Date` object, and `new Date(date)`
preserves the calendar fields, so the embedding takes the date value
directly. -/
def formatDate (date : JSDate) : String :=
  MONTHS.get (Fin.cast (by decide) date.month) ++ " " ++ toString date.year

/-- The `formatAxisDate` helper of `Dashboard.tsx`:
`` `${String(date.getMonth() + 1).padStart(2, '0')}-${date.getFullYear()}` ``. -/
def formatAxisDate (date : JSDate) : String :=
  padStart2 (toString (date.month.val + 1)) ++ "-" ++ toString date.year

/-- The grouping key built in `loadData`:
`` `${date.getFullYear()}-${String(date.getMonth() + 1).padStart(2, '0')}` ``. -/
def monthKey (date : JSDate) : String :=
  toString date.year ++ "-" ++ padStart2 (toString (date.month.val + 1))

/-- A record produced by `Papa.parse(text, { header: true, skipEmptyLines:
true })`.  The pipeline reads only the fields `"Incident Date"` and
`"Highest Injury Severity Alleged"`; either may be absent (`none`,
JavaScript `undefined`) in a row shorter than the header. -/
structure Row where
  incidentDate : Option String
  severity : Option String
deriving DecidableEq, Repr

/-- The bucket object stored at `monthlyAccidents[key]` in `loadData`. -/
structure MonthBucket where
  date : String
  axisDate : String
  count : Nat
  sortKey : String
deriving DecidableEq, Repr

/-- One `{ name, value }` pair of `adasInjuriesData` / `adsInjuriesData`. -/
structure CategoryCount where
  name : String
  value : Nat
deriving DecidableEq, Repr

/-- One step of the `monthlyAccidents` accumulation: the body of the
`forEach` for a record whose `Incident Date` parsed to `date`.  A JavaScript
object keyed by these non-integer strings preserves first-insertion order,
so it is embedded as an association list where assigning to an existing key
replaces the stored value in place and assigning a fresh key appends;
`monthlyAccidents[key]?.count || 0` is the count of the entry currently at
`key`, or `0` when there is none. -/
def insertMonthly (acc : List (String × MonthBucket)) (date : JSDate) :
    List (String × MonthBucket) :=
  let key := monthKey date
  let prev : Nat :=
    match acc.lookup key with
    | some b => b.count
    | none => 0
  let b : MonthBucket :=
    { date := formatDate date, axisDate := formatAxisDate date,
      count := prev + 1, sortKey := key }
  if acc.any (fun p => p.1 == key) then
    acc.map (fun p => if p.1 == key then (p.1, b) else p)
  else
    acc ++ [(key, b)]

/-- The `monthlyAccidents` object after the `forEach` over
`[...adasData, ...adsData]`.  The parameter `pd` stands for the JavaScript
`Date` constructor (external builtin): `pd s` is the calendar fields of
`new Date(s)` when that date is valid and `none` exactly when
`isNaN(date.getTime())`; a record with no `Incident Date` field gives
`new Date(undefined)`, which is invalid. -/
def monthlyAccidents (pd : String → Option JSDate) (rows : List Row) :
    List (String × MonthBucket) :=
  rows.foldl (fun acc row =>
    match row.incidentDate.bind pd with
    | some date => insertMonthly acc date
    | none => acc) []

/-- The `monthlyDataArray` value of `loadData`:
`Object.values(monthlyAccidents).sort((a, b) => a.sortKey.localeCompare(b.sortKey))`.
`Object.values` returns the stored buckets in first-insertion order; on the
`"YYYY-MM"` keys produced here `localeCompare` agrees with ordinal string
comparison, and the sort keys are pairwise distinct, so every comparison
sort returns the same list, here realised by insertion sort. -/
def monthlyDataArray (pd : String → Option JSDate) (rows : List Row) :
    List MonthBucket :=
  List.insertionSort (fun a b => a.sortKey ≤ b.sortKey)
    ((monthlyAccidents pd rows).map Prod.snd)

/-- JavaScript truthiness test `severity && severity !== 'Unknown'` applied
to the `"Highest Injury Severity Alleged"` field of a row: `undefined` and
the empty string are falsy. -/
def goodSeverity (row : Row) : Bool :=
  match row.severity with
  | some s => s != "" && s != "Unknown"
  | none => false

/-- JavaScript `acc[severity] = (acc[severity] || 0) + 1` on a string-keyed
object, with the same in-place-replace / append-fresh-key semantics as
`insertMonthly`. -/
def bumpKey (acc : List (String × Nat)) (k : String) : List (String × Nat) :=
  let v : Nat :=
    (match acc.lookup k with
     | some n => n
     | none => 0) + 1
  if acc.any (fun p => p.1 == k) then
    acc.map (fun p => if p.1 == k then (p.1, v) else p)
  else
    acc ++ [(k, v)]

/-- The `reduce` of `loadData` building the severity-count object for one
feed's rows. -/
def injuriesAccum (rows : List Row) : List (String × Nat) :=
  rows.foldl (fun acc row =>
    match row.severity with
    | some s => if s != "" && s != "Unknown" then bumpKey acc s else acc
    | none => acc) []

/-- The `adasInjuriesData` / `adsInjuriesData` value for one feed:
`Object.entries(...).map(([name, value]) => ({ name, value }))`, entries in
first-insertion order. -/
def injuriesData (rows : List Row) : List CategoryCount :=
  (injuriesAccum rows).map (fun p => { name := p.1, value := p.2 })

/-- The value passed to `setTotalADAS` / `setTotalADS`:
`injuriesData.reduce((sum, item) => sum + item.value, 0)`. -/
def totalInjuries (rows : List Row) : Nat :=
  (injuriesData rows).foldl (fun sum item => sum + item.value) 0

/-- Reformulation of the body of the severity `reduce` in terms of
`goodSeverity`, used by the proofs; it is shown pointwise equal to the
transcribed body. -/
def catStep (acc : List (String × Nat)) (row : Row) : List (String × Nat) :=
  if goodSeverity row then bumpKey acc (row.severity.getD "") else acc

/-- A `fetch` response as consumed by `loadData`: its `ok` flag and the text
of its body. -/
structure Response where
  ok : Bool
  body : String
deriving DecidableEq, Repr

/-- The view state held by the `Dashboard` component's hooks: `loading`
while `isLoading` is set, `error` when the error message is set, and
otherwise the five data values (`monthlyData`, `adasInjuries`,
`adsInjuries`, `totalADAS`, `totalADS`). -/
inductive ViewState where
  | loading
  | ready (monthlyData : List MonthBucket)
      (adasInjuries adsInjuries : List CategoryCount)
      (totalADAS totalADS : Nat)
  | error (msg : String)
deriving DecidableEq, Repr

/-- The `loadData` closure of the `Dashboard` component.  `pd` stands for
the JavaScript `Date` constructor and `parse` for `Papa.parse` with
`header: true, skipEmptyLines: true` (both external to the repository).
Each fetch either rejects (`Except.error`, carrying the message of the
exception `loadData` catches; when both reject, the message surfaced by
`Promise.all` is the temporally first, modelled here as the first feed's)
or resolves to a `Response`.  When both resolve but either has
`ok = false`, `loadData` throws `'Failed to fetch CSV files'`, which its
`catch` turns into the error state. -/
def loadData (pd : String → Option JSDate) (parse : String → List Row)
    (adasResponse adsResponse : Except String Response) : ViewState :=
  match adasResponse, adsResponse with
  | Except.ok ra, Except.ok rb =>
    if !ra.ok || !rb.ok then ViewState.error "Failed to fetch CSV files"
    else
      let adasData := parse ra.body
      let adsData := parse rb.body
      ViewState.ready (monthlyDataArray pd (adasData ++ adsData))
        (injuriesData adasData) (injuriesData adsData)
        (totalInjuries adasData) (totalInjuries adsData)
  | Except.error e, _ => ViewState.error e
  | Except.ok _, Except.error e => ViewState.error e

/-- The decimal value of an ASCII digit. -/
def digitVal (c : Char) : Nat := c.toNat - 48

/-- Modelled from the spec: the JavaScript `Date` constructor called by
`loadData` is an external builtin whose source is not part of the
repository.  Section 4.2 of the spec requires that a parseable date string
yield its calendar year and month, that dates without a time component
parse as local midnight, and that unparseable strings (for example the
empty string) are invalid rather than epoch.  This concrete model accepts
exactly the ISO `"YYYY-MM-DD"` form with a month in `01..12` and a day in
`01..31` and rejects everything else; it instantiates the abstract
parameter `pd` in witnesses. -/
def jsDateISO (s : String) : Option JSDate :=
  match s.toList with
  | [y1, y2, y3, y4, '-', m1, m2, '-', d1, d2] =>
    if hd : y1.isDigit ∧ y2.isDigit ∧ y3.isDigit ∧ y4.isDigit ∧
        m1.isDigit ∧ m2.isDigit ∧ d1.isDigit ∧ d2.isDigit then
      let y : Nat :=
        ((digitVal y1 * 10 + digitVal y2) * 10 + digitVal y3) * 10 + digitVal y4
      let m : Nat := digitVal m1 * 10 + digitVal m2
      let d : Nat := digitVal d1 * 10 + digitVal d2
      if hm : 1 ≤ m ∧ m ≤ 12 ∧ 1 ≤ d ∧ d ≤ 31 then
        some ⟨(y : Int), ⟨m - 1, by omega⟩⟩
      else none
    else none
  | _ => none

/-- The incident dates of the records whose `"Incident Date"` field parses
to a valid date under the date constructor `pd`. -/
def validDates (pd : String → Option JSDate) (rows : List Row) : List JSDate :=
  rows.filterMap (fun row => row.incidentDate.bind pd)

/-- The first valid incident date mapping to a given sort key. -/
def firstDateWithKey (pd : String → Option JSDate) (rows : List Row) (k : String) :
    Option JSDate :=
  (validDates pd rows).find? (fun d => monthKey d == k)

/-- The keys (first components) of a string-keyed association list. -/
def accKeys {β : Type} (acc : List (String × β)) : List String :=
  acc.map Prod.fst

/-- The sum of the stored `count` fields of the `monthlyAccidents` object. -/
def sumCounts (acc : List (String × MonthBucket)) : Nat :=
  (acc.map (fun p => p.2.count)).sum

/-- The `count` stored at key `k` of the `monthlyAccidents` object, or `0`
when `k` is absent. -/
def lookCount (acc : List (String × MonthBucket)) (k : String) : Nat :=
  match acc.lookup k with
  | some b => b.count
  | none => 0

/-- The sum of the stored values of a severity-count object. -/
def sumVals (acc : List (String × Nat)) : Nat :=
  (acc.map Prod.snd).sum

/-- The stored labels of a bucket entry agree with the labels computed from
some date mapping to its key. -/
def labelOk (p : String × MonthBucket) : Prop :=
  ∃ d : JSDate, monthKey d = p.1 ∧ p.2.date = formatDate d ∧
    p.2.axisDate = formatAxisDate d

/-- Sample feed used to instantiate the universally quantified theorems on
concrete inputs. -/
def sampleA : List Row := [⟨some "2021-05-10", some "Minor"⟩]

/-- A second sample feed with a record in the same month as `sampleA`. -/
def sampleB : List Row := [⟨some "2021-05-20", some "Minor"⟩]

/-- A sample record whose incident date is empty (unparseable) but whose
severity is usable. -/
def sampleBad : Row := ⟨some "", some "Minor"⟩

/-- A sample record with a parseable date but severity `"Unknown"`. -/
def sampleUnknown : Row := ⟨some "2021-06-20", some "Unknown"⟩

/-! Basic lemmas about string-keyed association lists with the JavaScript
object update semantics (replace in place at an existing key, append a fresh
key). -/

theorem any_beq_iff {β : Type} (acc : List (String × β)) (k : String) :
    (acc.any fun p => p.1 == k) = true ↔ k ∈ accKeys acc := by
  simp only [List.any_eq_true, beq_iff_eq, accKeys, List.mem_map]

theorem lookup_eq_none_of_not_mem {β : Type} (acc : List (String × β)) (k : String)
    (h : k ∉ accKeys acc) : acc.lookup k = none := by
  induction acc with
  | nil => rfl
  | cons p t ih =>
    obtain ⟨a, c⟩ := p
    simp only [accKeys, List.map_cons, List.mem_cons, not_or] at h
    have hka : (k == a) = false := beq_false_of_ne h.1
    simp only [List.lookup_cons, hka]
    exact ih (by simpa [accKeys] using h.2)

theorem lookup_append {β : Type} (l1 l2 : List (String × β)) (k : String) :
    (l1 ++ l2).lookup k =
      match l1.lookup k with
      | some v => some v
      | none => l2.lookup k := by
  induction l1 with
  | nil => simp
  | cons p t ih =>
    obtain ⟨a, c⟩ := p
    by_cases hka : k = a
    · subst hka
      simp [List.lookup_cons]
    · simp [List.lookup_cons, beq_false_of_ne hka, ih]

theorem map_replace_eq_self {β : Type} (l : List (String × β)) (k0 : String) (b : β)
    (h : k0 ∉ accKeys l) :
    l.map (fun p => if p.1 == k0 then (p.1, b) else p) = l := by
  induction l with
  | nil => rfl
  | cons p t ih =>
    obtain ⟨a, c⟩ := p
    simp only [accKeys, List.map_cons, List.mem_cons, not_or] at h
    have hak : (a == k0) = false := beq_false_of_ne (fun e => h.1 e.symm)
    simp only [List.map_cons, hak, Bool.false_eq_true, if_false]
    rw [ih (by simpa [accKeys] using h.2)]

theorem assoc_decomp {β : Type} (l : List (String × β)) (k0 : String)
    (hnd : (accKeys l).Nodup) (hmem : k0 ∈ accKeys l) :
    ∃ l1 b0 l2, l = l1 ++ (k0, b0) :: l2 ∧ k0 ∉ accKeys l1 ∧ k0 ∉ accKeys l2 ∧
      l.lookup k0 = some b0 ∧
      ∀ b : β, l.map (fun p => if p.1 == k0 then (p.1, b) else p) =
        l1 ++ (k0, b) :: l2 := by
  induction l with
  | nil => simp [accKeys] at hmem
  | cons p t ih =>
    obtain ⟨a, c⟩ := p
    simp only [accKeys, List.map_cons, List.nodup_cons] at hnd
    obtain ⟨ha, hndt⟩ := hnd
    simp only [accKeys, List.map_cons, List.mem_cons] at hmem
    rcases hmem with rfl | hmem'
    · refine ⟨[], c, t, by simp, by simp [accKeys], by simpa [accKeys] using ha, ?_, ?_⟩
      · simp [List.lookup_cons]
      · intro b
        simp only [List.nil_append, List.map_cons, beq_self_eq_true, if_true]
        rw [map_replace_eq_self t k0 b (by simpa [accKeys] using ha)]
    · have hk0a : k0 ≠ a := fun e => ha (e ▸ hmem')
      obtain ⟨l1, b0, l2, he, h1, h2, hl, hm⟩ := ih hndt (by simpa [accKeys] using hmem')
      refine ⟨(a, c) :: l1, b0, l2, by rw [List.cons_append, ← he], ?_, h2, ?_, ?_⟩
      · simp only [accKeys, List.map_cons, List.mem_cons, not_or]
        exact ⟨hk0a, by simpa [accKeys] using h1⟩
      · simp only [List.lookup_cons, beq_false_of_ne hk0a]
        exact hl
      · intro b
        have hak : (a == k0) = false := beq_false_of_ne (Ne.symm hk0a)
        simp only [List.map_cons, hak, Bool.false_eq_true, if_false, List.cons_append]
        rw [hm b]

/-! Step lemmas for a single `insertMonthly` update. -/

theorem accKeys_insertMonthly (acc : List (String × MonthBucket)) (d : JSDate) :
    accKeys (insertMonthly acc d) =
      if monthKey d ∈ accKeys acc then accKeys acc
      else accKeys acc ++ [monthKey d] := by
  by_cases hmem : monthKey d ∈ accKeys acc
  · have hany := (any_beq_iff acc (monthKey d)).mpr hmem
    rw [if_pos hmem]
    simp only [insertMonthly, hany, if_true, accKeys, List.map_map]
    apply List.map_congr_left
    intro p hp
    by_cases h : p.1 = monthKey d
    · simp [h]
    · simp [h, beq_false_of_ne h]
  · have hany : (acc.any fun p => p.1 == monthKey d) = false := by
      rw [Bool.eq_false_iff]
      intro h
      exact hmem ((any_beq_iff acc (monthKey d)).mp h)
    rw [if_neg hmem]
    simp [insertMonthly, hany, accKeys]

theorem nodup_insertMonthly (acc : List (String × MonthBucket)) (d : JSDate)
    (hnd : (accKeys acc).Nodup) : (accKeys (insertMonthly acc d)).Nodup := by
  rw [accKeys_insertMonthly]
  split
  · exact hnd
  · next hmem => simp [List.nodup_append, hnd, hmem]

theorem sumCounts_insertMonthly (acc : List (String × MonthBucket)) (d : JSDate)
    (hnd : (accKeys acc).Nodup) :
    sumCounts (insertMonthly acc d) = sumCounts acc + 1 := by
  by_cases hmem : monthKey d ∈ accKeys acc
  · have hany := (any_beq_iff acc (monthKey d)).mpr hmem
    obtain ⟨l1, b0, l2, he, h1, h2, hl, hm⟩ := assoc_decomp acc (monthKey d) hnd hmem
    simp only [insertMonthly, hany, if_true, hl]
    rw [hm, he]
    simp only [sumCounts, List.map_append, List.map_cons, List.sum_append, List.sum_cons]
    omega
  · have hany : (acc.any fun p => p.1 == monthKey d) = false := by
      rw [Bool.eq_false_iff]
      intro h
      exact hmem ((any_beq_iff acc (monthKey d)).mp h)
    simp only [insertMonthly, hany, Bool.false_eq_true, if_false,
      lookup_eq_none_of_not_mem acc (monthKey d) hmem]
    simp [sumCounts, List.sum_append]

theorem lookCount_insertMonthly (acc : List (String × MonthBucket)) (d : JSDate)
    (k : String) (hnd : (accKeys acc).Nodup) :
    lookCount (insertMonthly acc d) k =
      if k = monthKey d then lookCount acc k + 1 else lookCount acc k := by
  by_cases hmem : monthKey d ∈ accKeys acc
  · have hany := (any_beq_iff acc (monthKey d)).mpr hmem
    obtain ⟨l1, b0, l2, he, h1, h2, hl, hm⟩ := assoc_decomp acc (monthKey d) hnd hmem
    simp only [insertMonthly, hany, if_true, hl]
    rw [hm]
    by_cases hk : k = monthKey d
    · subst hk
      rw [if_pos rfl]
      simp only [lookCount, hl, lookup_append,
        lookup_eq_none_of_not_mem l1 (monthKey d) h1, List.lookup_cons,
        beq_self_eq_true]
    · rw [if_neg hk]
      have hkb : (k == monthKey d) = false := beq_false_of_ne hk
      simp only [lookCount, he, lookup_append, List.lookup_cons, hkb]
  · have hany : (acc.any fun p => p.1 == monthKey d) = false := by
      rw [Bool.eq_false_iff]
      intro h
      exact hmem ((any_beq_iff acc (monthKey d)).mp h)
    have hln := lookup_eq_none_of_not_mem acc (monthKey d) hmem
    simp only [insertMonthly, hany, Bool.false_eq_true, if_false, hln]
    by_cases hk : k = monthKey d
    · subst hk
      simp [lookCount, lookup_append, hln, List.lookup_cons]
    · have hkb : (k == monthKey d) = false := beq_false_of_ne hk
      rw [if_neg hk]
      cases hc : acc.lookup k with
      | none => simp [lookCount, lookup_append, hc, List.lookup_cons, hkb]
      | some b => simp [lookCount, lookup_append, hc]

theorem inv_insertMonthly (acc : List (String × MonthBucket)) (d : JSDate)
    (hnd : (accKeys acc).Nodup)
    (hinv : ∀ p ∈ acc, p.2.sortKey = p.1 ∧ labelOk p) :
    ∀ p ∈ insertMonthly acc d, p.2.sortKey = p.1 ∧ labelOk p := by
  by_cases hmem : monthKey d ∈ accKeys acc
  · have hany := (any_beq_iff acc (monthKey d)).mpr hmem
    obtain ⟨l1, b0, l2, he, h1, h2, hl, hm⟩ := assoc_decomp acc (monthKey d) hnd hmem
    simp only [insertMonthly, hany, if_true, hl]
    rw [hm]
    intro p hp
    rcases List.mem_append.mp hp with hp1 | hp2
    · exact hinv p (he ▸ List.mem_append.mpr (Or.inl hp1))
    · rcases List.mem_cons.mp hp2 with rfl | hp3
      · exact ⟨rfl, ⟨d, rfl, rfl, rfl⟩⟩
      · exact hinv p (he ▸ List.mem_append.mpr (Or.inr (List.mem_cons_of_mem _ hp3)))
  · have hany : (acc.any fun p => p.1 == monthKey d) = false := by
      rw [Bool.eq_false_iff]
      intro h
      exact hmem ((any_beq_iff acc (monthKey d)).mp h)
    simp only [insertMonthly, hany, Bool.false_eq_true, if_false]
    intro p hp
    rcases List.mem_append.mp hp with hp1 | hp2
    · exact hinv p hp1
    · rcases List.mem_cons.mp hp2 with rfl | hp3
      · exact ⟨rfl, ⟨d, rfl, rfl, rfl⟩⟩
      · simp at hp3

/-! Fold lemmas: the `monthlyAccidents` accumulation over the list of valid
incident dates. -/

theorem monthlyAccidents_eq_fold (pd : String → Option JSDate) (rows : List Row) :
    monthlyAccidents pd rows = (validDates pd rows).foldl insertMonthly [] := by
  suffices h : ∀ (rows : List Row) (acc : List (String × MonthBucket)),
      rows.foldl (fun a row =>
        match row.incidentDate.bind pd with
        | some date => insertMonthly a date
        | none => a) acc = (validDates pd rows).foldl insertMonthly acc by
    exact h rows []
  intro rows
  induction rows with
  | nil => intro acc; simp [validDates]
  | cons r t ih =>
    intro acc
    cases h : r.incidentDate.bind pd <;>
      simp [validDates, List.filterMap_cons, h, ih]

theorem nodup_fold (ds : List JSDate) :
    ∀ acc : List (String × MonthBucket), (accKeys acc).Nodup →
      (accKeys (ds.foldl insertMonthly acc)).Nodup := by
  induction ds with
  | nil => intro acc h; simpa using h
  | cons d t ih =>
    intro acc h
    simpa using ih (insertMonthly acc d) (nodup_insertMonthly acc d h)

theorem sumCounts_fold (ds : List JSDate) :
    ∀ acc : List (String × MonthBucket), (accKeys acc).Nodup →
      sumCounts (ds.foldl insertMonthly acc) = sumCounts acc + ds.length := by
  induction ds with
  | nil => intro acc _; simp
  | cons d t ih =>
    intro acc h
    have := ih (insertMonthly acc d) (nodup_insertMonthly acc d h)
    simp only [List.foldl_cons, this, sumCounts_insertMonthly acc d h, List.length_cons]
    omega

theorem lookCount_fold (ds : List JSDate) :
    ∀ (acc : List (String × MonthBucket)) (k : String), (accKeys acc).Nodup →
      lookCount (ds.foldl insertMonthly acc) k =
        lookCount acc k + ds.countP (fun d => monthKey d == k) := by
  induction ds with
  | nil => intro acc k _; simp
  | cons d t ih =>
    intro acc k h
    rw [List.foldl_cons, ih (insertMonthly acc d) k (nodup_insertMonthly acc d h),
      lookCount_insertMonthly acc d k h, List.countP_cons]
    by_cases hk : k = monthKey d
    · subst hk
      rw [if_pos rfl]
      simp only [beq_self_eq_true, if_true]
      omega
    · have hb : (monthKey d == k) = false := beq_false_of_ne (Ne.symm hk)
      rw [if_neg hk, hb]
      simp

theorem mem_keys_fold (ds : List JSDate) :
    ∀ (acc : List (String × MonthBucket)) (k : String),
      (k ∈ accKeys (ds.foldl insertMonthly acc) ↔
        k ∈ accKeys acc ∨ k ∈ ds.map monthKey) := by
  induction ds with
  | nil => intro acc k; simp
  | cons d t ih =>
    intro acc k
    rw [List.foldl_cons, ih (insertMonthly acc d) k, accKeys_insertMonthly]
    by_cases hmem : monthKey d ∈ accKeys acc
    · rw [if_pos hmem]
      simp only [List.map_cons, List.mem_cons]
      constructor
      · rintro (h | h)
        · exact Or.inl h
        · exact Or.inr (Or.inr h)
      · rintro (h | rfl | h)
        · exact Or.inl h
        · exact Or.inl hmem
        · exact Or.inr h
    · rw [if_neg hmem]
      simp only [List.mem_append, List.mem_singleton, List.map_cons, List.mem_cons]
      tauto

theorem inv_fold (ds : List JSDate) :
    ∀ acc : List (String × MonthBucket), (accKeys acc).Nodup →
      (∀ p ∈ acc, p.2.sortKey = p.1 ∧ labelOk p) →
      ∀ p ∈ ds.foldl insertMonthly acc, p.2.sortKey = p.1 ∧ labelOk p := by
  induction ds with
  | nil => intro acc _ hinv; simpa using hinv
  | cons d t ih =>
    intro acc h hinv
    simpa using ih (insertMonthly acc d) (nodup_insertMonthly acc d h)
      (inv_insertMonthly acc d h hinv)

/-! Lemmas showing that the month key of a date determines its labels. -/

theorem pad2_len : ∀ m : Fin 12, (padStart2 (toString (m.val + 1))).length = 2 := by
  decide

theorem pad2_inj : ∀ m1 m2 : Fin 12,
    padStart2 (toString (m1.val + 1)) = padStart2 (toString (m2.val + 1)) →
    m1 = m2 := by
  decide

theorem string_append_inj {s1 t1 s2 t2 : String} (h : s1 ++ t1 = s2 ++ t2)
    (hl : t1.length = t2.length) : s1 = s2 ∧ t1 = t2 := by
  have hd := congrArg String.data h
  rw [String.data_append, String.data_append] at hd
  have hld : t1.data.length = t2.data.length := hl
  obtain ⟨h1, h2⟩ := List.append_inj' hd hld
  exact ⟨String.ext h1, String.ext h2⟩

theorem monthKey_det (d1 d2 : JSDate) (h : monthKey d1 = monthKey d2) :
    formatDate d1 = formatDate d2 ∧ formatAxisDate d1 = formatAxisDate d2 := by
  unfold monthKey at h
  obtain ⟨h1, h2⟩ := string_append_inj h (by rw [pad2_len, pad2_len])
  obtain ⟨hy, -⟩ := string_append_inj h1 rfl
  have hm : d1.month = d2.month := pad2_inj _ _ h2
  constructor
  · unfold formatDate
    rw [hy, hm]
  · unfold formatAxisDate
    rw [hy, hm]

/-! Lemmas about the sorted `monthlyDataArray` output. -/

theorem monthlyDataArray_perm (pd : String → Option JSDate) (rows : List Row) :
    (monthlyDataArray pd rows).Perm ((monthlyAccidents pd rows).map Prod.snd) :=
  List.perm_insertionSort _ _

theorem monthlyAccidents_nodup (pd : String → Option JSDate) (rows : List Row) :
    (accKeys (monthlyAccidents pd rows)).Nodup := by
  rw [monthlyAccidents_eq_fold]
  exact nodup_fold _ [] (by simp [accKeys])

theorem monthlyAccidents_inv (pd : String → Option JSDate) (rows : List Row) :
    ∀ p ∈ monthlyAccidents pd rows, p.2.sortKey = p.1 ∧ labelOk p := by
  rw [monthlyAccidents_eq_fold]
  exact inv_fold _ [] (by simp [accKeys]) (by simp)

theorem map_sortKey_values (pd : String → Option JSDate) (rows : List Row) :
    ((monthlyAccidents pd rows).map Prod.snd).map (fun b => b.sortKey) =
      accKeys (monthlyAccidents pd rows) := by
  rw [List.map_map]
  exact List.map_congr_left (fun p hp => (monthlyAccidents_inv pd rows p hp).1)

theorem monthlyDataArray_sorted (pd : String → Option JSDate) (rows : List Row) :
    List.Sorted (fun a b : MonthBucket => a.sortKey ≤ b.sortKey)
      (monthlyDataArray pd rows) := by
  haveI : IsTotal MonthBucket (fun a b => a.sortKey ≤ b.sortKey) :=
    ⟨fun a b => le_total a.sortKey b.sortKey⟩
  haveI : IsTrans MonthBucket (fun a b => a.sortKey ≤ b.sortKey) :=
    ⟨fun a b c h1 h2 => le_trans h1 h2⟩
  exact List.sorted_insertionSort _ _

theorem monthlyDataArray_nodup_keys (pd : String → Option JSDate) (rows : List Row) :
    ((monthlyDataArray pd rows).map (fun b => b.sortKey)).Nodup := by
  have hperm := (monthlyDataArray_perm pd rows).map (fun b => b.sortKey)
  refine hperm.symm.nodup ?_
  rw [map_sortKey_values]
  exact monthlyAccidents_nodup pd rows

theorem monthlyDataArray_strict (pd : String → Option JSDate) (rows : List Row) :
    (monthlyDataArray pd rows).Pairwise (fun a b => a.sortKey < b.sortKey) := by
  have hs : (monthlyDataArray pd rows).Pairwise
      (fun a b : MonthBucket => a.sortKey ≤ b.sortKey) :=
    monthlyDataArray_sorted pd rows
  have hn := monthlyDataArray_nodup_keys pd rows
  rw [List.Nodup, List.pairwise_map] at hn
  exact (hs.and hn).imp (fun h => lt_of_le_of_ne h.1 h.2)

theorem monthlyDataArray_length (pd : String → Option JSDate) (rows : List Row) :
    (monthlyDataArray pd rows).length = (accKeys (monthlyAccidents pd rows)).length := by
  rw [(monthlyDataArray_perm pd rows).length_eq]
  simp [accKeys]

theorem monthlyDataArray_sum (pd : String → Option JSDate) (rows : List Row) :
    ((monthlyDataArray pd rows).map (fun b => b.count)).sum =
      (validDates pd rows).length := by
  have hperm := ((monthlyDataArray_perm pd rows).map (fun b => b.count)).sum_eq
  rw [hperm, List.map_map]
  have hsum : sumCounts (monthlyAccidents pd rows) =
      sumCounts [] + (validDates pd rows).length := by
    rw [monthlyAccidents_eq_fold]
    exact sumCounts_fold _ [] (by simp [accKeys])
  simpa [sumCounts, Function.comp] using hsum

theorem mem_keys_accidents (pd : String → Option JSDate) (rows : List Row)
    (k : String) :
    k ∈ accKeys (monthlyAccidents pd rows) ↔
      k ∈ (validDates pd rows).map monthKey := by
  rw [monthlyAccidents_eq_fold]
  simpa [accKeys] using mem_keys_fold (validDates pd rows) [] k

theorem lookCount_accidents (pd : String → Option JSDate) (rows : List Row)
    (k : String) :
    lookCount (monthlyAccidents pd rows) k =
      (validDates pd rows).countP (fun d => monthKey d == k) := by
  rw [monthlyAccidents_eq_fold]
  have := lookCount_fold (validDates pd rows) [] k (by simp [accKeys])
  simpa [lookCount] using this

theorem lookup_of_mem_nodup {β : Type} (l : List (String × β)) (p : String × β)
    (hnd : (accKeys l).Nodup) (hp : p ∈ l) : l.lookup p.1 = some p.2 := by
  induction l with
  | nil => simp at hp
  | cons q t ih =>
    obtain ⟨a, c⟩ := q
    simp only [accKeys, List.map_cons, List.nodup_cons] at hnd
    rcases List.mem_cons.mp hp with rfl | hp'
    · simp [List.lookup_cons]
    · have hne : p.1 ≠ a := by
        intro e
        exact hnd.1 (e ▸ (List.mem_map.mpr ⟨p, hp', rfl⟩))
      simp only [List.lookup_cons, beq_false_of_ne hne]
      exact ih (by simpa [accKeys] using hnd.2) hp'

theorem listToFinset_map {α β : Type} [DecidableEq α] [DecidableEq β]
    (l : List α) (f : α → β) : (l.map f).toFinset = l.toFinset.image f := by
  ext x
  simp

theorem monthlyAccidents_insert_invalid (pd : String → Option JSDate)
    (l1 l2 : List Row) (r : Row) (hr : r.incidentDate.bind pd = none) :
    monthlyAccidents pd (l1 ++ r :: l2) = monthlyAccidents pd (l1 ++ l2) := by
  simp [monthlyAccidents, List.foldl_append, List.foldl_cons, hr]

/-! Lemmas for the per-feed severity aggregation. -/

theorem accKeys_bumpKey (acc : List (String × Nat)) (k : String) :
    accKeys (bumpKey acc k) =
      if k ∈ accKeys acc then accKeys acc else accKeys acc ++ [k] := by
  by_cases hmem : k ∈ accKeys acc
  · have hany := (any_beq_iff acc k).mpr hmem
    rw [if_pos hmem]
    simp only [bumpKey, hany, if_true, accKeys, List.map_map]
    apply List.map_congr_left
    intro p hp
    by_cases h : p.1 = k
    · simp [h]
    · simp [h, beq_false_of_ne h]
  · have hany : (acc.any fun p => p.1 == k) = false := by
      rw [Bool.eq_false_iff]
      intro h
      exact hmem ((any_beq_iff acc k).mp h)
    rw [if_neg hmem]
    simp [bumpKey, hany, accKeys]

theorem nodup_bumpKey (acc : List (String × Nat)) (k : String)
    (hnd : (accKeys acc).Nodup) : (accKeys (bumpKey acc k)).Nodup := by
  rw [accKeys_bumpKey]
  split
  · exact hnd
  · next hmem => simp [List.nodup_append, hnd, hmem]

theorem sumVals_bumpKey (acc : List (String × Nat)) (k : String)
    (hnd : (accKeys acc).Nodup) : sumVals (bumpKey acc k) = sumVals acc + 1 := by
  by_cases hmem : k ∈ accKeys acc
  · have hany := (any_beq_iff acc k).mpr hmem
    obtain ⟨l1, b0, l2, he, h1, h2, hl, hm⟩ := assoc_decomp acc k hnd hmem
    simp only [bumpKey, hany, if_true, hl]
    rw [hm, he]
    simp only [sumVals, List.map_append, List.map_cons, List.sum_append, List.sum_cons]
    omega
  · have hany : (acc.any fun p => p.1 == k) = false := by
      rw [Bool.eq_false_iff]
      intro h
      exact hmem ((any_beq_iff acc k).mp h)
    simp only [bumpKey, hany, Bool.false_eq_true, if_false,
      lookup_eq_none_of_not_mem acc k hmem]
    simp [sumVals, List.sum_append]

theorem names_bumpKey (acc : List (String × Nat)) (k : String) (Q : String → Prop)
    (hacc : ∀ p ∈ acc, Q p.1) (hk : Q k) : ∀ p ∈ bumpKey acc k, Q p.1 := by
  intro p hp
  by_cases hmem : (acc.any fun q => q.1 == k) = true
  · simp only [bumpKey, hmem, if_true] at hp
    rcases List.mem_map.mp hp with ⟨q, hq, he⟩
    by_cases h : q.1 = k
    · rw [← he]
      simp only [h, beq_self_eq_true, if_true]
      exact h ▸ hacc q hq
    · rw [← he]
      simp only [beq_false_of_ne h, Bool.false_eq_true, if_false]
      exact hacc q hq
  · have hf : (acc.any fun q => q.1 == k) = false := Bool.eq_false_iff.mpr hmem
    simp only [bumpKey, hf, Bool.false_eq_true, if_false] at hp
    rcases List.mem_append.mp hp with hp1 | hp2
    · exact hacc p hp1
    · rw [List.mem_singleton.mp hp2]
      exact hk

theorem goodSeverity_spec (row : Row) (h : goodSeverity row = true) :
    row.severity.getD "" ≠ "" ∧ row.severity.getD "" ≠ "Unknown" := by
  cases hs : row.severity with
  | none => simp [goodSeverity, hs] at h
  | some s =>
    simp only [goodSeverity, hs, Bool.and_eq_true, bne_iff_ne] at h
    simp only [Option.getD_some]
    exact h

theorem injuriesAccum_eq_cat (rows : List Row) :
    injuriesAccum rows = rows.foldl catStep [] := by
  suffices h : ∀ (rows : List Row) (acc : List (String × Nat)),
      rows.foldl (fun acc row =>
        match row.severity with
        | some s => if s != "" && s != "Unknown" then bumpKey acc s else acc
        | none => acc) acc = rows.foldl catStep acc by
    exact h rows []
  intro rows
  induction rows with
  | nil => intro acc; rfl
  | cons r t ih =>
    intro acc
    rw [List.foldl_cons, List.foldl_cons, ih]
    congr 1
    cases hs : r.severity with
    | none => simp [catStep, goodSeverity, hs]
    | some s => simp [catStep, goodSeverity, hs]

theorem cat_fold_nodup (rows : List Row) :
    ∀ acc : List (String × Nat), (accKeys acc).Nodup →
      (accKeys (rows.foldl catStep acc)).Nodup := by
  induction rows with
  | nil => intro acc h; simpa using h
  | cons r t ih =>
    intro acc h
    rw [List.foldl_cons]
    refine ih _ ?_
    unfold catStep
    split
    · exact nodup_bumpKey acc _ h
    · exact h

theorem cat_fold_sum (rows : List Row) :
    ∀ acc : List (String × Nat), (accKeys acc).Nodup →
      sumVals (rows.foldl catStep acc) = sumVals acc + rows.countP goodSeverity := by
  induction rows with
  | nil => intro acc _; simp
  | cons r t ih =>
    intro acc h
    rw [List.foldl_cons, List.countP_cons]
    by_cases hg : goodSeverity r = true
    · have hstep : catStep acc r = bumpKey acc (r.severity.getD "") := by
        simp [catStep, hg]
      rw [hstep, ih _ (nodup_bumpKey acc _ h), sumVals_bumpKey acc _ h, hg]
      simp only [if_true]
      omega
    · have hf : goodSeverity r = false := Bool.eq_false_iff.mpr hg
      have hstep : catStep acc r = acc := by simp [catStep, hf]
      rw [hstep, ih _ h, hf]
      simp

theorem cat_fold_names (rows : List Row) :
    ∀ acc : List (String × Nat),
      (∀ p ∈ acc, p.1 ≠ "" ∧ p.1 ≠ "Unknown") →
      ∀ p ∈ rows.foldl catStep acc, p.1 ≠ "" ∧ p.1 ≠ "Unknown" := by
  induction rows with
  | nil => intro acc h; simpa using h
  | cons r t ih =>
    intro acc h
    rw [List.foldl_cons]
    refine ih _ ?_
    unfold catStep
    split
    · next hg =>
      exact names_bumpKey acc _ (fun s => s ≠ "" ∧ s ≠ "Unknown") h
        (goodSeverity_spec r hg)
    · exact h

theorem foldl_add_value (l : List CategoryCount) :
    ∀ n : Nat, l.foldl (fun sum item => sum + item.value) n =
      n + (l.map (fun i => i.value)).sum := by
  induction l with
  | nil => intro n; simp
  | cons c t ih =>
    intro n
    rw [List.foldl_cons, ih]
    simp [List.sum_cons]
    omega

theorem totalInjuries_eq_sum (rows : List Row) :
    totalInjuries rows = ((injuriesData rows).map (fun i => i.value)).sum := by
  rw [totalInjuries, foldl_add_value]
  simp

theorem totalInjuries_eq_sumVals (rows : List Row) :
    totalInjuries rows = sumVals (injuriesAccum rows) := by
  rw [totalInjuries_eq_sum, injuriesData, List.map_map, sumVals]
  rfl

theorem totalInjuries_eq_countP (rows : List Row) :
    totalInjuries rows = rows.countP goodSeverity := by
  rw [totalInjuries_eq_sumVals, injuriesAccum_eq_cat]
  have := cat_fold_sum rows [] (by simp [accKeys])
  simpa [sumVals] using this

theorem injuriesAccum_insert_bad (l1 l2 : List Row) (r : Row)
    (hr : goodSeverity r = false) :
    injuriesAccum (l1 ++ r :: l2) = injuriesAccum (l1 ++ l2) := by
  rw [injuriesAccum_eq_cat, injuriesAccum_eq_cat, List.foldl_append,
    List.foldl_append, List.foldl_cons]
  congr 1
  simp [catStep, hr]

theorem injuriesData_insert_bad (l1 l2 : List Row) (r : Row)
    (hr : goodSeverity r = false) :
    injuriesData (l1 ++ r :: l2) = injuriesData (l1 ++ l2) := by
  rw [injuriesData, injuriesData, injuriesAccum_insert_bad l1 l2 r hr]

theorem validDates_append (pd : String → Option JSDate) (rowsA rowsB : List Row) :
    validDates pd (rowsA ++ rowsB) = validDates pd rowsA ++ validDates pd rowsB := by
  simp [validDates, List.filterMap_append]

theorem monthlyDataArray_card_bound (pd : String → Option JSDate) (rows : List Row) :
    (monthlyDataArray pd rows).length ≤
      ((validDates pd rows).map (fun d => (d.year, d.month))).dedup.length := by
  have hpairinj : Function.Injective (fun d : JSDate => (d.year, d.month)) := by
    intro a b h
    obtain ⟨y1, m1⟩ := a
    obtain ⟨y2, m2⟩ := b
    simp only [Prod.mk.injEq] at h
    rw [JSDate.mk.injEq]
    exact h
  rw [monthlyDataArray_length]
  have hnd := monthlyAccidents_nodup pd rows
  rw [← List.toFinset_card_of_nodup hnd]
  have hset : (accKeys (monthlyAccidents pd rows)).toFinset =
      ((validDates pd rows).map monthKey).toFinset := by
    ext k
    simp only [List.mem_toFinset]
    exact mem_keys_accidents pd rows k
  rw [hset, listToFinset_map, ← List.card_toFinset, listToFinset_map,
    Finset.card_image_of_injective _ hpairinj]
  exact Finset.card_image_le

theorem cat_fold_id (rows : List Row) (h : ∀ r ∈ rows, goodSeverity r = false) :
    ∀ acc : List (String × Nat), rows.foldl catStep acc = acc := by
  induction rows with
  | nil => intro acc; rfl
  | cons r t ih =>
    intro acc
    rw [List.foldl_cons]
    have hstep : catStep acc r = acc := by
      simp [catStep, h r (List.mem_cons_self r t)]
    rw [hstep]
    exact ih (fun x hx => h x (List.mem_cons_of_mem r hx)) acc

theorem monthlyDataArray_nil (pd : String → Option JSDate) (rows : List Row)
    (h : ∀ r ∈ rows, r.incidentDate.bind pd = none) :
    monthlyDataArray pd rows = [] := by
  have hv : validDates pd rows = [] := List.filterMap_eq_nil_iff.mpr h
  unfold monthlyDataArray
  rw [monthlyAccidents_eq_fold, hv]
  rfl

theorem injuriesData_nil (rows : List Row) (h : ∀ r ∈ rows, goodSeverity r = false) :
    injuriesData rows = [] := by
  unfold injuriesData
  rw [injuriesAccum_eq_cat, cat_fold_id rows h []]
  rfl

theorem totalInjuries_nil (rows : List Row) (h : ∀ r ∈ rows, goodSeverity r = false) :
    totalInjuries rows = 0 := by
  rw [totalInjuries_eq_countP]
  exact List.countP_eq_zero.mpr (fun r hr => by simp [h r hr])

/-! Claim theorems. -/

/-- C1: for every pair of input feeds, the sum of the `count` fields over all
MonthBuckets equals the number of records across both feeds whose
`"Incident Date"` parses to a valid date, the number of MonthBuckets is at
most the number of distinct valid `(year, month)` pairs across both feeds,
and a record with an unparseable date contributes to no bucket's count (the
output is unchanged when such a record is removed). -/
theorem claim1_monthly_conservation (pd : String → Option JSDate)
    (rowsA rowsB l1 l2 : List Row) (r : Row)
    (hr : r.incidentDate.bind pd = none) :
    ((monthlyDataArray pd (rowsA ++ rowsB)).map (fun b => b.count)).sum =
      (validDates pd (rowsA ++ rowsB)).length ∧
    (monthlyDataArray pd (rowsA ++ rowsB)).length ≤
      ((validDates pd (rowsA ++ rowsB)).map
        (fun d => (d.year, d.month))).dedup.length ∧
    monthlyDataArray pd (l1 ++ r :: l2) = monthlyDataArray pd (l1 ++ l2) := by
  refine ⟨monthlyDataArray_sum pd _, monthlyDataArray_card_bound pd _, ?_⟩
  unfold monthlyDataArray
  rw [monthlyAccidents_insert_invalid pd l1 l2 r hr]

/-- C2: for every pair of input feeds, the MonthBuckets returned by the
monthly aggregation are strictly ascending by `sortKey` under lexicographic
string comparison, and no two buckets share a `sortKey`. -/
theorem claim2_monthly_sorted_strict (pd : String → Option JSDate)
    (rowsA rowsB : List Row) :
    (monthlyDataArray pd (rowsA ++ rowsB)).Pairwise
      (fun a b => a.sortKey < b.sortKey) ∧
    ((monthlyDataArray pd (rowsA ++ rowsB)).map (fun b => b.sortKey)).Nodup :=
  ⟨monthlyDataArray_strict pd (rowsA ++ rowsB),
   monthlyDataArray_nodup_keys pd (rowsA ++ rowsB)⟩

/-- C3: for every feed, the reported total equals the sum of the `value`
fields of the feed's CategoryCount entries, and also equals the number of
records in the feed whose severity field is present, non-empty, and not
`"Unknown"`. -/
theorem claim3_category_total (rows : List Row) :
    totalInjuries rows = ((injuriesData rows).map (fun i => i.value)).sum ∧
    totalInjuries rows = rows.countP goodSeverity :=
  ⟨totalInjuries_eq_sum rows, totalInjuries_eq_countP rows⟩

/-- C5: a record whose `"Incident Date"` does not parse is excluded from the
monthly aggregation only (removing it leaves the MonthBuckets unchanged); it
is still evaluated by the category aggregation, and counted there whenever
its severity field is present, non-empty, and not `"Unknown"`. -/
theorem claim5_invalid_date_still_counted (pd : String → Option JSDate)
    (l1 l2 : List Row) (r : Row)
    (hr : r.incidentDate.bind pd = none) (hs : goodSeverity r = true) :
    monthlyDataArray pd (l1 ++ r :: l2) = monthlyDataArray pd (l1 ++ l2) ∧
    totalInjuries (l1 ++ r :: l2) = totalInjuries (l1 ++ l2) + 1 := by
  constructor
  · unfold monthlyDataArray
    rw [monthlyAccidents_insert_invalid pd l1 l2 r hr]
  · rw [totalInjuries_eq_countP, totalInjuries_eq_countP, List.countP_append,
      List.countP_append, List.countP_cons, hs]
    simp only [if_true]
    omega

/-- C6: a record whose severity field is missing, empty, or `"Unknown"`
contributes to neither the CategoryCount mapping nor the feed total
(removing it changes nothing), and no CategoryCount entry ever has the name
`"Unknown"` or the empty string. -/
theorem claim6_unknown_excluded (rows l1 l2 : List Row) (r : Row)
    (hr : goodSeverity r = false) :
    (∀ c ∈ injuriesData rows, c.name ≠ "" ∧ c.name ≠ "Unknown") ∧
    injuriesData (l1 ++ r :: l2) = injuriesData (l1 ++ l2) ∧
    totalInjuries (l1 ++ r :: l2) = totalInjuries (l1 ++ l2) := by
  refine ⟨?_, injuriesData_insert_bad l1 l2 r hr, ?_⟩
  · intro c hc
    obtain ⟨p, hp, hpc⟩ := List.mem_map.mp hc
    rw [injuriesAccum_eq_cat] at hp
    have hnames := cat_fold_names rows [] (by simp) p hp
    rw [← hpc]
    exact hnames
  · rw [totalInjuries_eq_countP, totalInjuries_eq_countP, List.countP_append,
      List.countP_append, List.countP_cons, hr]
    simp

/-- C7: for every month key occurring in both feeds' validly dated records,
the combined monthly aggregation has exactly one bucket with that
`sortKey`, its count is the sum of the two feeds' numbers of matching
records, and buckets are unique per distinct `sortKey` across the combined
set. -/
theorem claim7_combined_bucket (pd : String → Option JSDate)
    (rowsA rowsB : List Row) (k : String)
    (hA : ∃ d ∈ validDates pd rowsA, monthKey d = k)
    (_hB : ∃ d ∈ validDates pd rowsB, monthKey d = k) :
    (monthlyDataArray pd (rowsA ++ rowsB)).countP (fun b => b.sortKey == k) = 1 ∧
    (∀ b ∈ monthlyDataArray pd (rowsA ++ rowsB), b.sortKey = k →
      b.count = (validDates pd rowsA).countP (fun d => monthKey d == k) +
        (validDates pd rowsB).countP (fun d => monthKey d == k)) ∧
    ((monthlyDataArray pd (rowsA ++ rowsB)).map (fun b => b.sortKey)).Nodup := by
  obtain ⟨dA, hdAmem, hdAk⟩ := hA
  have hkmem : k ∈ accKeys (monthlyAccidents pd (rowsA ++ rowsB)) := by
    rw [mem_keys_accidents, validDates_append]
    exact List.mem_map.mpr ⟨dA, List.mem_append.mpr (Or.inl hdAmem), hdAk⟩
  have hnd := monthlyAccidents_nodup pd (rowsA ++ rowsB)
  refine ⟨?_, ?_, monthlyDataArray_nodup_keys pd (rowsA ++ rowsB)⟩
  · rw [(monthlyDataArray_perm pd (rowsA ++ rowsB)).countP_eq, List.countP_map]
    have hcongr : List.countP ((fun b => b.sortKey == k) ∘ Prod.snd)
        (monthlyAccidents pd (rowsA ++ rowsB)) =
        List.countP ((fun s => s == k) ∘ Prod.fst)
        (monthlyAccidents pd (rowsA ++ rowsB)) := by
      apply List.countP_congr
      intro p hp
      simp only [Function.comp, (monthlyAccidents_inv pd _ p hp).1]
    rw [hcongr, ← List.countP_map, ← List.count_eq_countP]
    exact List.count_eq_one_of_mem hnd hkmem
  · intro b hb hbk
    have hbv : b ∈ (monthlyAccidents pd (rowsA ++ rowsB)).map Prod.snd :=
      ((monthlyDataArray_perm pd (rowsA ++ rowsB)).mem_iff).mp hb
    obtain ⟨p, hp, hpb⟩ := List.mem_map.mp hbv
    have hpk : p.1 = k := by
      rw [← (monthlyAccidents_inv pd _ p hp).1, hpb, hbk]
    have hlook := lookup_of_mem_nodup _ p hnd hp
    have hcount : lookCount (monthlyAccidents pd (rowsA ++ rowsB)) k = b.count := by
      rw [← hpk, lookCount, hlook, hpb]
    rw [← hcount, lookCount_accidents, validDates_append, List.countP_append]

/-- C8: every bucket's label fields equal the labels computed from the first
validly dated record mapping to that bucket's `sortKey`; increments by later
records with the same key leave them unchanged. -/
theorem claim8_labels_from_first (pd : String → Option JSDate) (rows : List Row)
    (b : MonthBucket) (hb : b ∈ monthlyDataArray pd rows) :
    ∃ d, firstDateWithKey pd rows b.sortKey = some d ∧
      b.date = formatDate d ∧ b.axisDate = formatAxisDate d := by
  have hbv : b ∈ (monthlyAccidents pd rows).map Prod.snd :=
    ((monthlyDataArray_perm pd rows).mem_iff).mp hb
  obtain ⟨p, hp, hpb⟩ := List.mem_map.mp hbv
  obtain ⟨hkey, d0, hd0k, hdate, haxis⟩ := monthlyAccidents_inv pd rows p hp
  have hbk : b.sortKey = p.1 := by rw [← hpb, hkey]
  have hkmem : p.1 ∈ (validDates pd rows).map monthKey :=
    (mem_keys_accidents pd rows p.1).mp (List.mem_map.mpr ⟨p, hp, rfl⟩)
  obtain ⟨d1, hd1mem, hd1k⟩ := List.mem_map.mp hkmem
  have hsome : ((validDates pd rows).find?
      (fun x => monthKey x == b.sortKey)).isSome = true :=
    List.find?_isSome.mpr ⟨d1, hd1mem, by rw [hbk]; simp [hd1k]⟩
  obtain ⟨d, hd⟩ := Option.isSome_iff_exists.mp hsome
  have hdk : monthKey d = b.sortKey := by
    have := List.find?_some hd
    simpa using this
  obtain ⟨hfd, hfa⟩ := monthKey_det d d0 (by rw [hdk, hbk, hd0k])
  refine ⟨d, hd, ?_, ?_⟩
  · rw [← hpb, hdate, hfd]
  · rw [← hpb, haxis, hfa]

/-- C4: if either fetch rejects or either response has a non-success status,
`loadData` ends in the error state with a message; no aggregated data is
computed or exposed. -/
theorem claim4_fetch_failure (pd : String → Option JSDate)
    (parse : String → List Row) (ra rb : Except String Response)
    (h : ¬ ∃ a b, ra = Except.ok a ∧ rb = Except.ok b ∧
      a.ok = true ∧ b.ok = true) :
    ∃ msg, loadData pd parse ra rb = ViewState.error msg := by
  cases ra with
  | error e => exact ⟨e, rfl⟩
  | ok a =>
    cases rb with
    | error e => exact ⟨e, rfl⟩
    | ok b =>
      cases hao : a.ok with
      | false => exact ⟨"Failed to fetch CSV files", by simp [loadData, hao]⟩
      | true =>
        cases hbo : b.ok with
        | false => exact ⟨"Failed to fetch CSV files", by simp [loadData, hao, hbo]⟩
        | true => exact absurd ⟨a, b, rfl, rfl, hao, hbo⟩ h

/-- C9: the pipeline is a pure function of the fetched inputs: two runs on
identical fetch results (hence identical input text) yield identical
MonthBuckets, CategoryCounts, and totals. -/
theorem claim9_deterministic (pd : String → Option JSDate)
    (parse : String → List Row) (ra rb ra2 rb2 : Except String Response)
    (h1 : ra = ra2) (h2 : rb = rb2) :
    loadData pd parse ra rb = loadData pd parse ra2 rb2 := by
  rw [h1, h2]

/-- C10: when both fetches succeed but no parsed record passes any filter
(no record has a parseable date and none has a usable severity; in
particular when both feeds parse to zero records), the pipeline reaches the
ready state with empty MonthBuckets, empty CategoryCounts for both feeds,
and totals `0`. -/
theorem claim10_empty_ready (pd : String → Option JSDate)
    (parse : String → List Row) (ta tb : String)
    (h1 : ∀ r ∈ parse ta, r.incidentDate.bind pd = none)
    (h2 : ∀ r ∈ parse tb, r.incidentDate.bind pd = none)
    (h3 : ∀ r ∈ parse ta, goodSeverity r = false)
    (h4 : ∀ r ∈ parse tb, goodSeverity r = false) :
    loadData pd parse (Except.ok ⟨true, ta⟩) (Except.ok ⟨true, tb⟩) =
      ViewState.ready [] [] [] 0 0 := by
  have hboth : ∀ r ∈ parse ta ++ parse tb, r.incidentDate.bind pd = none := by
    intro r hr
    rcases List.mem_append.mp hr with h | h
    · exact h1 r h
    · exact h2 r h
  simp only [loadData, Bool.not_true, Bool.or_self, Bool.false_eq_true, if_false]
  rw [monthlyDataArray_nil pd _ hboth, injuriesData_nil _ h3, injuriesData_nil _ h4,
    totalInjuries_nil _ h3, totalInjuries_nil _ h4]

/-! Concrete witnesses for the claim theorems with hypotheses. -/

/-- Witness for C1 at concrete feeds and a concrete invalid-date record. -/
theorem claim1_witness :
    sampleBad.incidentDate.bind jsDateISO = none ∧
    (((monthlyDataArray jsDateISO (sampleA ++ sampleB)).map (fun b => b.count)).sum =
        (validDates jsDateISO (sampleA ++ sampleB)).length ∧
      (monthlyDataArray jsDateISO (sampleA ++ sampleB)).length ≤
        ((validDates jsDateISO (sampleA ++ sampleB)).map
          (fun d => (d.year, d.month))).dedup.length ∧
      monthlyDataArray jsDateISO ([] ++ sampleBad :: sampleB) =
        monthlyDataArray jsDateISO ([] ++ sampleB)) :=
  ⟨by decide,
   claim1_monthly_conservation jsDateISO sampleA sampleB [] sampleB sampleBad
     (by decide)⟩

/-- Witness for C4 at a concrete rejected fetch. -/
theorem claim4_witness :
    (¬ ∃ a b, (Except.error "network down" : Except String Response) =
        Except.ok a ∧
      (Except.ok (Response.mk true "") : Except String Response) =
        Except.ok b ∧ a.ok = true ∧ b.ok = true) ∧
    ∃ msg, loadData jsDateISO (fun _ => []) (Except.error "network down")
      (Except.ok (Response.mk true "")) = ViewState.error msg :=
  ⟨by rintro ⟨a, b, h1, -⟩; exact Except.noConfusion h1,
   claim4_fetch_failure jsDateISO (fun _ => []) (Except.error "network down")
     (Except.ok (Response.mk true ""))
     (by rintro ⟨a, b, h1, -⟩; exact Except.noConfusion h1)⟩

/-- Witness for C5 at a concrete record with an empty date and severity
`"Minor"`. -/
theorem claim5_witness :
    sampleBad.incidentDate.bind jsDateISO = none ∧
    goodSeverity sampleBad = true ∧
    (monthlyDataArray jsDateISO (sampleA ++ sampleBad :: sampleB) =
        monthlyDataArray jsDateISO (sampleA ++ sampleB) ∧
      totalInjuries (sampleA ++ sampleBad :: sampleB) =
        totalInjuries (sampleA ++ sampleB) + 1) :=
  ⟨by decide, by decide,
   claim5_invalid_date_still_counted jsDateISO sampleA sampleB sampleBad
     (by decide) (by decide)⟩

/-- Witness for C6 at a concrete record with severity `"Unknown"`. -/
theorem claim6_witness :
    goodSeverity sampleUnknown = false ∧
    ((∀ c ∈ injuriesData sampleA, c.name ≠ "" ∧ c.name ≠ "Unknown") ∧
      injuriesData (sampleA ++ sampleUnknown :: sampleB) =
        injuriesData (sampleA ++ sampleB) ∧
      totalInjuries (sampleA ++ sampleUnknown :: sampleB) =
        totalInjuries (sampleA ++ sampleB)) :=
  ⟨by decide,
   claim6_unknown_excluded sampleA sampleA sampleB sampleUnknown (by decide)⟩

/-- Witness for C7 at two concrete feeds sharing the month `2021-05`. -/
theorem claim7_witness :
    (∃ d ∈ validDates jsDateISO sampleA, monthKey d = "2021-05") ∧
    (∃ d ∈ validDates jsDateISO sampleB, monthKey d = "2021-05") ∧
    ((monthlyDataArray jsDateISO (sampleA ++ sampleB)).countP
        (fun b => b.sortKey == "2021-05") = 1 ∧
      (∀ b ∈ monthlyDataArray jsDateISO (sampleA ++ sampleB),
        b.sortKey = "2021-05" →
        b.count = (validDates jsDateISO sampleA).countP
            (fun d => monthKey d == "2021-05") +
          (validDates jsDateISO sampleB).countP
            (fun d => monthKey d == "2021-05")) ∧
      ((monthlyDataArray jsDateISO (sampleA ++ sampleB)).map
        (fun b => b.sortKey)).Nodup) :=
  ⟨by decide, by decide,
   claim7_combined_bucket jsDateISO sampleA sampleB "2021-05"
     (by decide) (by decide)⟩

/-- Witness for C8 at the concrete bucket produced by `sampleA`. -/
theorem claim8_witness :
    MonthBucket.mk "May 2021" "05-2021" 1 "2021-05" ∈
      monthlyDataArray jsDateISO sampleA ∧
    ∃ d, firstDateWithKey jsDateISO sampleA
        (MonthBucket.mk "May 2021" "05-2021" 1 "2021-05").sortKey = some d ∧
      (MonthBucket.mk "May 2021" "05-2021" 1 "2021-05").date = formatDate d ∧
      (MonthBucket.mk "May 2021" "05-2021" 1 "2021-05").axisDate =
        formatAxisDate d :=
  ⟨by decide,
   claim8_labels_from_first jsDateISO sampleA
     (MonthBucket.mk "May 2021" "05-2021" 1 "2021-05") (by decide)⟩

/-- Witness for C9 at concrete equal fetch results. -/
theorem claim9_witness :
    (Except.ok (Response.mk true "a") : Except String Response) =
      Except.ok (Response.mk true "a") ∧
    (Except.ok (Response.mk true "b") : Except String Response) =
      Except.ok (Response.mk true "b") ∧
    loadData jsDateISO (fun _ => []) (Except.ok (Response.mk true "a"))
        (Except.ok (Response.mk true "b")) =
      loadData jsDateISO (fun _ => []) (Except.ok (Response.mk true "a"))
        (Except.ok (Response.mk true "b")) :=
  ⟨rfl, rfl,
   claim9_deterministic jsDateISO (fun _ => [])
     (Except.ok (Response.mk true "a")) (Except.ok (Response.mk true "b"))
     (Except.ok (Response.mk true "a")) (Except.ok (Response.mk true "b"))
     rfl rfl⟩

/-- Witness for C10 with a parser returning no records. -/
theorem claim10_witness :
    (∀ r ∈ (fun _ : String => ([] : List Row)) "a",
      r.incidentDate.bind jsDateISO = none) ∧
    (∀ r ∈ (fun _ : String => ([] : List Row)) "b",
      r.incidentDate.bind jsDateISO = none) ∧
    (∀ r ∈ (fun _ : String => ([] : List Row)) "a", goodSeverity r = false) ∧
    (∀ r ∈ (fun _ : String => ([] : List Row)) "b", goodSeverity r = false) ∧
    loadData jsDateISO (fun _ => []) (Except.ok (Response.mk true "a"))
        (Except.ok (Response.mk true "b")) = ViewState.ready [] [] [] 0 0 :=
  ⟨by simp, by simp, by simp, by simp,
   claim10_empty_ready jsDateISO (fun _ => []) "a" "b"
     (by simp) (by simp) (by simp) (by simp)⟩
